import Mathlib

/-!
Verification development for the natural-language database chatbot
(clients `client.py`, `c2.py`, `c3.py`; servers `server.py`, `s2.py`).

The Python code is shallowly embedded below.  Text is modelled as
`List Char`; Python `dict`s built from JSON are association lists whose
keys are kept unique by construction (last assignment wins, first
insertion position kept, matching CPython `dict` semantics); Python
exceptions are modelled with `Except`.  Character classes follow the
ASCII fragment of Python's `re` module (`\w`, `\s`), which covers every
identifier and keyword the programs use.
-/

set_option maxRecDepth 4000

/-! ### Character classes and basic text utilities -/

/-- ASCII fragment of the regex class `\w` (`[a-zA-Z0-9_]`). -/
def isWordCh (c : Char) : Bool := c.isAlphanum || c == '_'

/-- ASCII fragment of the regex class `\s` (also Python `str.strip`
whitespace): space, tab, newline, carriage return, vertical tab, form feed. -/
def isSpaceCh (c : Char) : Bool :=
  c == ' ' || c == '\t' || c == '\n' || c == '\r' || c == '\x0b' || c == '\x0c'

/-- The whitespace skipped by Python's strict JSON decoder (` \t\n\r`). -/
def isJsonWs (c : Char) : Bool := c == ' ' || c == '\t' || c == '\n' || c == '\r'

/-- Decidable test that `p` begins `l` (`l.startswith(p)` on char lists). -/
def hasPrefixL (p l : List Char) : Bool :=
  match p, l with
  | [], _ => true
  | ph :: pt, lh :: lt => (ph == lh) && hasPrefixL pt lt
  | _ :: _, [] => false

/-- Decidable test that `p` ends `l` (`l.endswith(p)` on char lists). -/
def hasSuffixL (p l : List Char) : Bool := hasPrefixL p.reverse l.reverse

/-- Python's `pat in text` substring containment on char lists. -/
def containsSub (pat : List Char) : List Char → Bool
  | [] => hasPrefixL pat []
  | c :: rest => hasPrefixL pat (c :: rest) || containsSub pat rest

/-- `re` engine whitespace skip for a `\s*` subpattern. -/
def dropSpaces (l : List Char) : List Char := l.dropWhile isSpaceCh

/-- Python `str.strip()` (ASCII whitespace). -/
def pyStrip (l : List Char) : List Char :=
  ((l.dropWhile isSpaceCh).reverse.dropWhile isSpaceCh).reverse

/-- Python `str.lower()` (the programs only feed it ASCII). -/
def pyLower (s : String) : String := String.mk (s.toList.map Char.toLower)

/-! ### JSON values (the result type of `json.loads`) -/

/-- Python values produced by `json.loads`.  Integer literals become
`num`; floating literals (and the non-standard `NaN`/`Infinity` accepted
by Python) are kept as their raw token in `fnum` — no claim below
computes with a float. -/
inductive Json where
  | null
  | bool (b : Bool)
  | num (n : Int)
  | fnum (raw : String)
  | str (s : String)
  | arr (xs : List Json)
  | obj (kvs : List (String × Json))

/-- `k in d` for a Python dict. -/
def containsKey (kvs : List (String × Json)) (k : String) : Bool :=
  kvs.any (fun kv => kv.1 == k)

/-- `d[k]` lookup for a Python dict (keys are unique by construction). -/
def lookupKey (kvs : List (String × Json)) (k : String) : Option Json :=
  match kvs with
  | [] => none
  | (k', v) :: rest => if k' == k then some v else lookupKey rest k

/-- `d[k] = v` on a Python dict: updates in place when the key exists,
otherwise appends (CPython insertion-order semantics). -/
def dictInsert (kvs : List (String × Json)) (k : String) (v : Json) :
    List (String × Json) :=
  if containsKey kvs k then
    kvs.map (fun kv => if kv.1 == k then (k, v) else kv)
  else
    kvs ++ [(k, v)]

/-! ### `json.loads` (strict CPython decoder) -/

def skipJWs (l : List Char) : List Char := l.dropWhile isJsonWs

def hexVal (c : Char) : Option Nat :=
  if '0' ≤ c ∧ c ≤ '9' then some (c.toNat - 48)
  else if 'a' ≤ c ∧ c ≤ 'f' then some (c.toNat - 87)
  else if 'A' ≤ c ∧ c ≤ 'F' then some (c.toNat - 55)
  else none

def escMap : Char → Option Char
  | '\x22' => some '\x22'
  | '\\' => some '\\'
  | '/' => some '/'
  | 'b' => some '\x08'
  | 'f' => some '\x0c'
  | 'n' => some '\n'
  | 'r' => some '\r'
  | 't' => some '\t'
  | _ => none

/-- JSON string body (after the opening quote): returns the decoded
characters and the input remaining after the closing quote. -/
def parseStr : List Char → Except String (List Char × List Char)
  | [] => .error "Unterminated string"
  | c :: rest =>
    if c == '\x22' then .ok ([], rest)
    else if c == '\\' then
      match rest with
      | [] => .error "Unterminated string"
      | e :: rest2 =>
        if e == 'u' then
          match rest2 with
          | h1 :: h2 :: h3 :: h4 :: rest3 =>
            match hexVal h1, hexVal h2, hexVal h3, hexVal h4 with
            | some a, some b, some c2, some d =>
              match parseStr rest3 with
              | .ok (s, rem) =>
                .ok (Char.ofNat (((a * 16 + b) * 16 + c2) * 16 + d) :: s, rem)
              | .error er => .error er
            | _, _, _, _ => .error "Invalid hex escape"
          | _ => .error "Invalid hex escape"
        else
          match escMap e with
          | some ch =>
            match parseStr rest2 with
            | .ok (s, rem) => .ok (ch :: s, rem)
            | .error er => .error er
          | none => .error "Invalid escape"
    else if c.toNat < 32 then .error "Invalid control character"
    else
      match parseStr rest with
      | .ok (s, rem) => .ok (c :: s, rem)
      | .error er => .error er

/-- JSON number, starting at a `-` or a digit; integer literals give
`Json.num`, fraction/exponent forms keep their raw token in `Json.fnum`. -/
def parseNum (l : List Char) : Except String (Json × List Char) :=
  let sl : List Char × List Char :=
    match l with
    | '-' :: t => (['-'], t)
    | _ => ([], l)
  match sl.2 with
  | [] => .error "Expecting value"
  | c :: _ =>
    if c.isDigit then
      let l1 := sl.2
      let ipr : List Char × List Char :=
        if c == '0' then (['0'], l1.tail)
        else (l1.takeWhile Char.isDigit, l1.dropWhile Char.isDigit)
      let fpr : List Char × List Char :=
        match ipr.2 with
        | '.' :: t =>
          let ds := t.takeWhile Char.isDigit
          if ds.isEmpty then ([], ipr.2) else ('.' :: ds, t.dropWhile Char.isDigit)
        | _ => ([], ipr.2)
      let epr : List Char × List Char :=
        match fpr.2 with
        | e :: t =>
          if e == 'e' || e == 'E' then
            let sg : List Char × List Char :=
              match t with
              | '+' :: t' => (['+'], t')
              | '-' :: t' => (['-'], t')
              | _ => ([], t)
            let ds := sg.2.takeWhile Char.isDigit
            if ds.isEmpty then ([], fpr.2)
            else (e :: (sg.1 ++ ds), sg.2.dropWhile Char.isDigit)
          else ([], fpr.2)
        | [] => ([], fpr.2)
      if fpr.1.isEmpty && epr.1.isEmpty then
        let mag : Nat := ipr.1.foldl (fun acc d => acc * 10 + (d.toNat - 48)) 0
        .ok (Json.num (if sl.1.isEmpty then (mag : Int) else -(mag : Int)), ipr.2)
      else
        .ok (Json.fnum (String.mk (sl.1 ++ ipr.1 ++ fpr.1 ++ epr.1)), epr.2)
    else .error "Expecting value"

mutual

/-- One JSON value (fuel-indexed recursive-descent; the fuel passed by
`jsonLoads` always suffices). -/
def parseVal : Nat → List Char → Except String (Json × List Char)
  | 0, _ => .error "Too deeply nested"
  | fuel + 1, l =>
    match skipJWs l with
    | [] => .error "Expecting value"
    | c :: rest =>
      if c == '\x7b' then parseMembers fuel [] rest true
      else if c == '[' then parseItems fuel [] rest true
      else if c == '\x22' then
        match parseStr rest with
        | .ok (s, rem) => .ok (Json.str (String.mk s), rem)
        | .error e => .error e
      else if c == 't' then
        if hasPrefixL ['r', 'u', 'e'] rest then .ok (Json.bool true, rest.drop 3)
        else .error "Expecting value"
      else if c == 'f' then
        if hasPrefixL ['a', 'l', 's', 'e'] rest then .ok (Json.bool false, rest.drop 4)
        else .error "Expecting value"
      else if c == 'n' then
        if hasPrefixL ['u', 'l', 'l'] rest then .ok (Json.null, rest.drop 3)
        else .error "Expecting value"
      else if c == 'N' then
        if hasPrefixL ['a', 'N'] rest then .ok (Json.fnum "NaN", rest.drop 2)
        else .error "Expecting value"
      else if c == 'I' then
        if hasPrefixL ['n', 'f', 'i', 'n', 'i', 't', 'y'] rest then
          .ok (Json.fnum "Infinity", rest.drop 7)
        else .error "Expecting value"
      else if c == '-' then
        if hasPrefixL ['I', 'n', 'f', 'i', 'n', 'i', 't', 'y'] rest then
          .ok (Json.fnum "-Infinity", rest.drop 8)
        else parseNum (c :: rest)
      else if c.isDigit then parseNum (c :: rest)
      else .error "Expecting value"

/-- Members of a JSON object, after the opening brace (or after a comma
when `first = false`). -/
def parseMembers : Nat → List (String × Json) → List Char → Bool →
    Except String (Json × List Char)
  | 0, _, _, _ => .error "Too deeply nested"
  | fuel + 1, acc, l, first =>
    match skipJWs l with
    | [] => .error "Expecting property name enclosed in double quotes"
    | c :: rest =>
      if first && c == '\x7d' then .ok (Json.obj acc, rest)
      else if c == '\x22' then
        match parseStr rest with
        | .error e => .error e
        | .ok (k, r1) =>
          match skipJWs r1 with
          | ':' :: r2 =>
            (match parseVal fuel r2 with
             | .error e => .error e
             | .ok (v, r3) =>
               let acc2 := dictInsert acc (String.mk k) v
               match skipJWs r3 with
               | ',' :: r4 => parseMembers fuel acc2 r4 false
               | '\x7d' :: r4 => .ok (Json.obj acc2, r4)
               | _ => .error "Expecting delimiter")
          | _ => .error "Expecting colon delimiter"
      else .error "Expecting property name enclosed in double quotes"

/-- Items of a JSON array, after the opening bracket (or after a comma
when `first = false`). -/
def parseItems : Nat → List Json → List Char → Bool →
    Except String (Json × List Char)
  | 0, _, _, _ => .error "Too deeply nested"
  | fuel + 1, acc, l, first =>
    match skipJWs l with
    | [] => .error "Expecting value"
    | c :: rest =>
      if first && c == ']' then .ok (Json.arr acc, rest)
      else
        match parseVal fuel l with
        | .error e => .error e
        | .ok (v, r1) =>
          match skipJWs r1 with
          | ',' :: r2 => parseItems fuel (acc ++ [v]) r2 false
          | ']' :: r2 => .ok (Json.arr (acc ++ [v]), r2)
          | _ => .error "Expecting delimiter"

end

/-- `json.loads`: a single JSON document with nothing but whitespace after it. -/
def jsonLoads (l : List Char) : Except String Json :=
  match parseVal (l.length + 2) l with
  | .error e => .error e
  | .ok (v, rem) => if (skipJWs rem).isEmpty then .ok v else .error "Extra data"

/-- `true` exactly on a decode error. -/
def isJsonErr (r : Except String Json) : Bool :=
  match r with
  | .error _ => true
  | .ok _ => false

/-! ### The directive parser `parse_tool_response`

`client.py` / `c2.py` / `c3.py` all run
a TOOL regex search for the marker `TOOL:` plus `\s*(\w+)`, and a PARAMS
regex search for the marker `PARAMS:` plus `\s*`, an opening brace, a
greedy DOTALL `.*` and a closing brace.
The two scans below implement exactly those searches: leftmost match
position, `\s*` maximal (no backtracking is possible because `\s`, `\w`
and the opening brace are disjoint), `.*` greedy under DOTALL — so the `PARAMS`
capture runs from the first brace after the marker to the LAST closing
brace in the whole remaining text. -/

/-- The literal characters of the `TOOL:` marker. -/
def patTOOL : List Char := ['T', 'O', 'O', 'L', ':']

/-- The literal characters of the `PARAMS:` marker. -/
def patPARAMS : List Char := ['P', 'A', 'R', 'A', 'M', 'S', ':']

/-- Attempt the TOOL regex match anchored at the head of `t`:
returns the `\w+` capture. -/
def tryToolAt (t : List Char) : Option (List Char) :=
  if hasPrefixL patTOOL t then
    let w := (dropSpaces (t.drop 5)).takeWhile isWordCh
    if w.isEmpty then none else some w
  else none

/-- `re.search` for the TOOL regex: try each position left to right. -/
def scanTool : List Char → Option (List Char)
  | [] => none
  | c :: rest =>
    match tryToolAt (c :: rest) with
    | some w => some w
    | none => scanTool rest

/-- The prefix of `l` that ends at the last `'\x7d'` in `l`
(`none` when `l` has no closing brace). -/
def takeToLastRBrace (l : List Char) : Option (List Char) :=
  let r := l.reverse.dropWhile (fun c => c != '\x7d')
  if r.isEmpty then none else some r.reverse

/-- Attempt the PARAMS regex match anchored at the head of `t`
(DOTALL, greedy): returns the brace capture. -/
def tryParamsAt (t : List Char) : Option (List Char) :=
  if hasPrefixL patPARAMS t then
    match dropSpaces (t.drop 7) with
    | '\x7b' :: body => (takeToLastRBrace body).map (fun b => '\x7b' :: b)
    | _ => none
  else none

/-- `re.search` for the PARAMS regex with `re.DOTALL`. -/
def scanParams : List Char → Option (List Char)
  | [] => none
  | c :: rest =>
    match tryParamsAt (c :: rest) with
    | some r => some r
    | none => scanParams rest

/-- Python exceptions that can escape or be caught inside the clients. -/
inductive PyErr where
  | jsonDecode (msg : String)
  | keyError (k : String)
  | typeError (msg : String)
  | attributeError (msg : String)

/-- `true` exactly on an exception outcome. -/
def isErrE {α : Type} (r : Except PyErr α) : Bool :=
  match r with
  | .error _ => true
  | .ok _ => false

/-- Markdown fence stripping done by the fallback branch of `c3.py`:
strip, drop a leading ```` ```json ````, drop a trailing ```` ``` ````, strip. -/
def stripFencesClean (text : List Char) : List Char :=
  let c1 := pyStrip text
  let c2 := if hasPrefixL "```json".toList c1 then c1.drop 7 else c1
  let c3 := if hasSuffixL "```".toList c2 then c2.take (c2.length - 3) else c2
  pyStrip c3

/-- Python `key in j` on a decoded JSON value: dict key membership, list
element membership, substring test on strings; `TypeError` otherwise. -/
def pyIn (key : String) (j : Json) : Except PyErr Bool :=
  match j with
  | .obj kvs => .ok (containsKey kvs key)
  | .arr xs => .ok (xs.any (fun x => match x with | .str s => s == key | _ => false))
  | .str s => .ok (containsSub key.toList s.toList)
  | _ => .error (.typeError "argument of type is not iterable")

/-- Python `j[key]` on a decoded JSON value. -/
def pyIndex (j : Json) (key : String) : Except PyErr Json :=
  match j with
  | .obj kvs =>
    match lookupKey kvs key with
    | some v => .ok v
    | none => .error (.keyError key)
  | _ => .error (.typeError "indices must be integers")

/-- The guarded `json.loads(cleaned_text)` fallback of the `c3.py`
`parse_tool_response` (lines 36–51): only `json.JSONDecodeError` and
`KeyError` are caught. -/
def fallbackParse (text : List Char) : Except PyErr (Option (Json × Json)) :=
  let cleaned := stripFencesClean text
  match jsonLoads cleaned with
  | .error _ => .ok none
  | .ok j =>
    match pyIn "TOOL" j with
    | .error e => .error e
    | .ok false => .ok none
    | .ok true =>
      match pyIn "PARAMS" j with
      | .error e => .error e
      | .ok false => .ok none
      | .ok true =>
        match pyIndex j "TOOL" with
        | .error (.keyError _) => .ok none
        | .error e => .error e
        | .ok tv =>
          match pyIndex j "PARAMS" with
          | .error (.keyError _) => .ok none
          | .error e => .error e
          | .ok pv => .ok (some (tv, pv))

/-- `parse_tool_response` of `c3.py` (lines 27–53).  The `json.loads` in
the primary `TOOL:`/`PARAMS:` branch is NOT inside a `try`, so a decode
failure there escapes as an exception (`Except.error`). -/
def parse_tool_response (text : List Char) : Except PyErr (Option (Json × Json)) :=
  match scanTool text, scanParams text with
  | some tname, some ptext =>
    match jsonLoads ptext with
    | .ok p => .ok (some (Json.str (String.mk tname), p))
    | .error e => .error (.jsonDecode e)
  | _, _ => fallbackParse text

/-- `parse_tool_response` of `client.py` (lines 23–30) = `c2.py`
(lines 25–32): the primary grammar only, same uncaught `json.loads`. -/
def parse_tool_response_v1 (text : List Char) : Except PyErr (Option (String × Json)) :=
  match scanTool text, scanParams text with
  | some tname, some ptext =>
    match jsonLoads ptext with
    | .ok p => .ok (some (String.mk tname, p))
    | .error e => .error (.jsonDecode e)
  | _, _ => .ok none

/-- The two-line `TOOL:`/`PARAMS:` text shape quantified over by the
directive-parser claims: a `TOOL: <id>` line, arbitrary intermediate
text `m`, then `PARAMS: <json>`. -/
def mkDirectiveText (id m s : List Char) : List Char :=
  'T' :: 'O' :: 'O' :: 'L' :: ':' :: ' ' ::
    (id ++ '\n' :: (m ++ ('P' :: 'A' :: 'R' :: 'A' :: 'M' :: 'S' :: ':' :: ' ' :: s)))

/-! ### Intent router (`c3.py`, `process_query` lines 224–247) -/

def insertion_keywords : List String :=
  ["insert", "add", "create", "new record", "new row", "save", "store"]

def deletion_keywords : List String := ["delete", "remove", "drop"]

def update_keywords : List String := ["update", "modify", "change", "set"]

/-- `any(keyword in lower_query for keyword in kws)`. -/
def kwAny (kws : List String) (lq : String) : Bool :=
  kws.any (fun k => containsSub k.toList lq.toList)

/-- The route taken by a turn. -/
inductive Route where
  | insertion
  | deletion
  | update
  | generic
deriving DecidableEq

/-- The `if/elif/elif/else` dispatch of `process_query`: keyword sets
are tested on the lowercased query in the fixed order insertion,
deletion, update; a matching set reaches its specialized handler only
when a (truthy) schema is available, otherwise the turn falls through
to the generic path. -/
def routeOf (query : String) (schemaAvail : Bool) : Route :=
  let lq := pyLower query
  if kwAny insertion_keywords lq then
    (if schemaAvail then Route.insertion else Route.generic)
  else if kwAny deletion_keywords lq then
    (if schemaAvail then Route.deletion else Route.generic)
  else if kwAny update_keywords lq then
    (if schemaAvail then Route.update else Route.generic)
  else Route.generic

/-! ### Conversation memory (`process_query` lines 286–291) -/

/-- A role-tagged message held in `self.memory`. -/
inductive Msg where
  | user (content : String)
  | assistant (content : String)

/-- `MAX_MEMORY = 10` in the source (the spec's `MAX_EXCHANGES`). -/
def MAX_MEMORY : Nat := 10

/-- The most recent `n` elements of `l` (Python `l[-n:]`). -/
def lastN (n : Nat) (l : List Msg) : List Msg := l.drop (l.length - n)

/-- One generic-path memory update: append the user message and the
assistant reply, then trim when the cap `2 * MAX_MEMORY` is exceeded. -/
def memAppendTrim (mem : List Msg) (q resp : String) : List Msg :=
  let m := mem ++ [Msg.user q, Msg.assistant resp]
  if MAX_MEMORY * 2 < m.length then lastN (MAX_MEMORY * 2) m else m

/-- Run a sequence of generic-path turns (each a (query, reply) pair). -/
def runTurns (mem : List Msg) : List (String × String) → List Msg
  | [] => mem
  | (q, r) :: rest => runTurns (memAppendTrim mem q r) rest

/-- The full appended history of a turn sequence. -/
def histOf : List (String × String) → List Msg
  | [] => []
  | (q, r) :: rest => Msg.user q :: Msg.assistant r :: histOf rest

/-! ### Python truthiness (`if self.cached_schema`, `if schema_data`) -/

/-- A float token denotes `0.0` exactly when every digit of its
mantissa part is `0`. -/
def zeroFloatTok (s : String) : Bool :=
  (s.toList.takeWhile (fun c => c != 'e' && c != 'E')).all
    (fun c => !c.isDigit || c == '0')

/-- Python `bool(x)` on a decoded JSON value. -/
def pyTruthy : Json → Bool
  | .null => false
  | .bool b => b
  | .num n => n != 0
  | .fnum r =>
    if r == "NaN" || r == "Infinity" || r == "-Infinity" then true
    else !(zeroFloatTok r)
  | .str s => !(s == "")
  | .arr xs => !xs.isEmpty
  | .obj kvs => !kvs.isEmpty

/-! ### Schema cache (`c3.py`, `get_schema` lines 88–116) -/

/-- Outcome of the `get_schema` tool-call round trip: `err` for an
exception, `ok text` for the first text payload (possibly empty when no
text content was present). -/
inductive FetchOutcome where
  | err
  | ok (text : String)

/-- `get_schema(force_refresh)` as a function of the current
`self.cached_schema`, the flag, and the tool-call outcome.  Returns
`(value returned, new cached_schema, whether call_tool ran)`. -/
def get_schema (cached : Option Json) (force_refresh : Bool) (fetch : FetchOutcome) :
    Option Json × Option Json × Bool :=
  if (match cached with | some c => pyTruthy c | none => false) && !force_refresh then
    (cached, cached, false)
  else
    match fetch with
    | .err => (none, cached, true)
    | .ok text =>
      if text.isEmpty then (none, cached, true)
      else
        match jsonLoads text.toList with
        | .ok j => (some j, some j, true)
        | .error _ =>
          let raw := Json.obj [("raw_schema", Json.str text)]
          (some raw, some raw, true)

/-! ### Per-turn client state (`c3.py`, `process_query`) -/

/-- The mutable session state the turn handler touches. -/
structure ClientState where
  memory : List Msg
  cached_schema : Option Json

/-- The external round trips of one turn, supplied as oracles: what a
`get_schema` tool call would yield, and the language-model reply text. -/
structure TurnOracle where
  schemaFetch : FetchOutcome
  llmText : String

/-- `any(keyword in lower_query ...)` over the three keyword sets
(the guard that sends a turn toward a specialized handler). -/
def wantsSpecialized (query : String) : Bool :=
  kwAny insertion_keywords (pyLower query)
    || kwAny deletion_keywords (pyLower query)
    || kwAny update_keywords (pyLower query)

/-- The state effect of one `process_query` turn of `c3.py`: a matching
keyword set with a truthy schema runs a specialized handler (which never
touches `self.memory`); every other turn takes the generic path, which
appends the user/assistant exchange and trims. -/
def processQueryState (st : ClientState) (query : String) (o : TurnOracle) :
    ClientState :=
  if wantsSpecialized query then
    let r := get_schema st.cached_schema false o.schemaFetch
    match r.1 with
    | some sd =>
      if pyTruthy sd then
        { memory := st.memory, cached_schema := r.2.1 }
      else
        { memory := memAppendTrim st.memory query o.llmText, cached_schema := r.2.1 }
    | none =>
      { memory := memAppendTrim st.memory query o.llmText, cached_schema := r.2.1 }
  else
    { memory := memAppendTrim st.memory query o.llmText,
      cached_schema := st.cached_schema }

/-- Default filling on the generic path (`c3.py` lines 308–312,
`client.py` lines 154–156): missing `table`/`schema` keys are assigned
the fixed defaults, existing keys are left untouched. -/
def defaultFill (params : List (String × Json)) : List (String × Json) :=
  let p1 := if containsKey params "table" then params
            else params ++ [("table", Json.str "Customer")]
  if containsKey p1 "schema" then p1
  else p1 ++ [("schema", Json.str "SAC_1")]

/-! ### Insertion-result interpreter (`c3.py`, `_process_insertion_result`
lines 173–204) -/

/-- Python `str(x)` as used inside an f-string, for the non-string
`table` values a directive could in principle carry; no theorem below
depends on the two container renderings, which are abbreviated. -/
def pyStrJson : Json → String
  | .str s => s
  | .num n => toString n
  | .fnum r => r
  | .bool true => "True"
  | .bool false => "False"
  | .null => "None"
  | .arr _ => "[...]"
  | .obj _ => "\x7b...\x7d"

/-- Python `len(x)`; `TypeError` on sizeless values. -/
def pyLen : Json → Except PyErr Nat
  | .obj kvs => .ok kvs.length
  | .arr xs => .ok xs.length
  | .str s => .ok s.length
  | _ => .error (.typeError "object has no len")

/-- The test that the `object` entry of the decoded payload equals the
string `insert_result`. -/
def isInsertTag (kvs : List (String × Json)) : Bool :=
  match lookupKey kvs "object" with
  | some (Json.str o) => o == "insert_result"
  | _ => false

/-- The success sentence of `_process_insertion_result`. -/
def insertSuccessMsg (table : String) (n : Nat) : String :=
  "✅ Successfully inserted record into " ++ table ++ " table with "
    ++ toString n ++ " fields."

/-- The failure sentence of `_process_insertion_result` (includes the
raw payload text). -/
def insertFailMsg (table result_text : String) : String :=
  "❌ Error inserting data into " ++ table ++ ": " ++ result_text

/-- The `table_name` value: the `table` entry of `params`, rendered as in
an f-string, with the literal string `table` as default. -/
def tableNameOf (params : List (String × Json)) : String :=
  match lookupKey params "table" with
  | some j => pyStrJson j
  | none => "table"

/-- The `inserted_data` value: the `data` entry of `params`, defaulting
to an empty dict. -/
def insertedDataOf (params : List (String × Json)) : Json :=
  (lookupKey params "data").getD (Json.obj [])

/-- `_process_insertion_result(original_input, tool_result, params)`,
with `result_text` the first text payload already extracted.  Only
`json.JSONDecodeError` is caught, so a payload whose decoded value is
not a dict, or whose `message` value is not a string, raises
(`AttributeError`), as does a `data` value with no `len`. -/
def processInsertionResult (result_text : String) (params : List (String × Json)) :
    Except PyErr String :=
  match jsonLoads result_text.toList with
  | .ok rj =>
    match rj with
    | .obj kvs =>
      match (lookupKey kvs "message").getD (Json.str "") with
      | .str m =>
        if containsSub "successfully".toList (pyLower m).toList || isInsertTag kvs then
          match pyLen (insertedDataOf params) with
          | .ok n => .ok (insertSuccessMsg (tableNameOf params) n)
          | .error e => .error e
        else .ok (insertFailMsg (tableNameOf params) result_text)
      | _ => .error (.attributeError "lower")
    | _ => .error (.attributeError "get")
  | .error _ =>
    if containsSub "error".toList (pyLower result_text).toList
        || containsSub "failed".toList (pyLower result_text).toList then
      .ok (insertFailMsg (tableNameOf params) result_text)
    else
      match pyLen (insertedDataOf params) with
      | .ok n => .ok (insertSuccessMsg (tableNameOf params) n)
      | .error e => .error e

/-! ### Tool-server `insert_data` (`server.py` lines 78–101 and
`s2.py` lines 50–68) -/

/-- Outcome of the underlying `cursor.execute`. -/
inductive DbOutcome where
  | ok
  | err (msg : String)

/-- The `col_clause` built from `data.keys()` (verbatim, in order). -/
def colClause (data : List (String × Json)) : String :=
  String.intercalate ", " (data.map (fun kv => "\x22" ++ kv.1 ++ "\x22"))

/-- The `val_clause` of `?` placeholders, one per key. -/
def valClause (data : List (String × Json)) : String :=
  String.intercalate ", " (data.map (fun _ => "?"))

/-- The SQL text `insert_data` interpolates. -/
def insertSql (schemaName table : String) (data : List (String × Json)) : String :=
  "INSERT INTO \x22" ++ schemaName ++ "\x22.\x22" ++ table ++ "\x22 ("
    ++ colClause data ++ ") VALUES (" ++ valClause data ++ ")"

/-- The `insert_data` of `server.py`: a database error becomes an
`HTTPException(400, detail)`; success returns the tagged result object
echoing `data`. -/
def insert_data (table : String) (data : List (String × Json)) (db : DbOutcome) :
    Except (Nat × String) Json :=
  match db with
  | .err e => .error (400, e)
  | .ok =>
    .ok (Json.obj
      [("object", Json.str "insert_result"),
       ("message", Json.str ("Successfully inserted row into \x27" ++ table ++ "\x27")),
       ("data", Json.obj data)])

/-- The `insert_data` of `s2.py`: same SQL and error path, but the success
payload has no `object` tag and a different `message`. -/
def s2_insert_data (table : String) (data : List (String × Json)) (db : DbOutcome) :
    Except (Nat × String) Json :=
  match db with
  | .err e => .error (400, e)
  | .ok =>
    .ok (Json.obj
      [("message", Json.str ("Row inserted into \x27" ++ table ++ "\x27")),
       ("data", Json.obj data)])

/-! ## Helper lemmas -/

theorem lastN_of_le {l : List Msg} {n : Nat} (h : l.length ≤ n) : lastN n l = l := by
  unfold lastN
  have : l.length - n = 0 := by omega
  simp [this]

theorem lastN_length_le (n : Nat) (l : List Msg) : (lastN n l).length ≤ n := by
  unfold lastN
  simp
  omega

theorem lastN_suffix (n : Nat) (l : List Msg) : lastN n l <:+ l := by
  unfold lastN
  exact List.drop_suffix _ _

theorem lastN_append_lastN (n : Nat) (xs ys : List Msg) :
    lastN n (lastN n xs ++ ys) = lastN n (xs ++ ys) := by
  rcases Nat.le_total xs.length n with h | h
  · rw [lastN_of_le h]
  · unfold lastN
    have h1 : xs.drop (xs.length - n) ++ ys = (xs ++ ys).drop (xs.length - n) :=
      (List.drop_append_of_le_length (by omega)).symm
    rw [h1, List.drop_drop]
    congr 1
    simp
    omega

theorem memAppendTrim_eq_lastN (mem : List Msg) (q r : String) :
    memAppendTrim mem q r = lastN (MAX_MEMORY * 2) (mem ++ [Msg.user q, Msg.assistant r]) := by
  unfold memAppendTrim
  dsimp only
  by_cases h : MAX_MEMORY * 2 < (mem ++ [Msg.user q, Msg.assistant r]).length
  · rw [if_pos h]
  · rw [if_neg h]
    exact (lastN_of_le (by omega)).symm

theorem histOf_cons (q r : String) (ps : List (String × String)) :
    histOf ((q, r) :: ps) = Msg.user q :: Msg.assistant r :: histOf ps := rfl

theorem runTurns_eq_lastN (ps : List (String × String)) :
    ∀ mem : List Msg, mem.length ≤ MAX_MEMORY * 2 →
      runTurns mem ps = lastN (MAX_MEMORY * 2) (mem ++ histOf ps) := by
  induction ps with
  | nil =>
    intro mem h
    simp [runTurns, histOf]
    exact (lastN_of_le h).symm
  | cons p ps ih =>
    intro mem h
    obtain ⟨q, r⟩ := p
    show runTurns (memAppendTrim mem q r) ps = _
    rw [ih (memAppendTrim mem q r)
        (by rw [memAppendTrim_eq_lastN]; exact lastN_length_le _ _)]
    rw [memAppendTrim_eq_lastN, lastN_append_lastN, histOf_cons]
    simp

theorem containsKey_append (kvs kvs' : List (String × Json)) (k : String) :
    containsKey (kvs ++ kvs') k = (containsKey kvs k || containsKey kvs' k) := by
  simp [containsKey]

theorem containsKey_false_lookupKey {kvs : List (String × Json)} {k : String}
    (h : containsKey kvs k = false) : lookupKey kvs k = none := by
  induction kvs with
  | nil => rfl
  | cons kv rest ih =>
    simp [containsKey] at h
    obtain ⟨h1, h2⟩ := h
    obtain ⟨k', v⟩ := kv
    simp at h1
    simp [lookupKey, h1]
    exact ih (by simp [containsKey]; exact h2)

theorem lookupKey_append_left {kvs : List (String × Json)} {k : String} {v : Json}
    (h : lookupKey kvs k = some v) (kvs' : List (String × Json)) :
    lookupKey (kvs ++ kvs') k = some v := by
  induction kvs with
  | nil => simp [lookupKey] at h
  | cons kv rest ih =>
    obtain ⟨k', w⟩ := kv
    by_cases hk : k' == k
    · simp [lookupKey, hk] at h ⊢
      exact h
    · simp [lookupKey, hk] at h ⊢
      exact ih h

theorem lookupKey_append_right {kvs : List (String × Json)} {k : String}
    (h : lookupKey kvs k = none) (kvs' : List (String × Json)) :
    lookupKey (kvs ++ kvs') k = lookupKey kvs' k := by
  induction kvs with
  | nil => rfl
  | cons kv rest ih =>
    obtain ⟨k', w⟩ := kv
    by_cases hk : k' == k
    · simp [lookupKey, hk] at h
    · simp [lookupKey, hk] at h ⊢
      exact ih h

theorem lookupKey_of_containsKey_false_append {kvs : List (String × Json)}
    {k : String} (v : Json) (h : containsKey kvs k = false) :
    lookupKey (kvs ++ [(k, v)]) k = some v := by
  rw [lookupKey_append_right (containsKey_false_lookupKey h)]
  simp [lookupKey]

theorem hasPrefixL_iff (p l : List Char) :
    hasPrefixL p l = true ↔ ∃ t, l = p ++ t := by
  induction p generalizing l with
  | nil => simp [hasPrefixL]
  | cons a as ih =>
    cases l with
    | nil =>
      simp [hasPrefixL]
    | cons b bs =>
      simp only [hasPrefixL, Bool.and_eq_true, beq_iff_eq, ih, List.cons_append,
        List.cons.injEq]
      constructor
      · rintro ⟨rfl, t, rfl⟩
        exact ⟨t, rfl, rfl⟩
      · rintro ⟨t, rfl, rfl⟩
        exact ⟨rfl, t, rfl⟩

theorem hasPrefixL_append_self (p t : List Char) :
    hasPrefixL p (p ++ t) = true := by
  rw [hasPrefixL_iff]
  exact ⟨t, rfl⟩

theorem isWordCh_not_space {c : Char} (h : isWordCh c = true) : isSpaceCh c = false := by
  cases hx : isSpaceCh c
  · rfl
  · exfalso
    have hx' : c = ' ' ∨ c = '\t' ∨ c = '\n' ∨ c = '\r' ∨ c = '\x0b' ∨ c = '\x0c' := by
      unfold isSpaceCh at hx
      simp at hx
      tauto
    rcases hx' with rfl | rfl | rfl | rfl | rfl | rfl <;> revert h <;> decide

theorem takeWhile_append_stop (p : Char → Bool) (xs : List Char) (y : Char)
    (ys : List Char) (hxs : ∀ x ∈ xs, p x = true) (hy : p y = false) :
    (xs ++ y :: ys).takeWhile p = xs := by
  induction xs with
  | nil => simp [List.takeWhile, hy]
  | cons x xs ih =>
    have hx : p x = true := hxs x (by simp)
    simp [List.takeWhile, hx]
    exact ih (fun z hz => hxs z (by simp [hz]))

theorem dropWhile_cons_of_false {p : Char → Bool} {c : Char} (l : List Char)
    (h : p c = false) : (c :: l).dropWhile p = c :: l := by
  simp [List.dropWhile, h]

theorem takeToLastRBrace_of_getLast {l : List Char} (h : l.getLast? = some '\x7d') :
    takeToLastRBrace l = some l := by
  unfold takeToLastRBrace
  have hrev : l.reverse.head? = some '\x7d' := by
    rw [List.head?_reverse]
    exact h
  cases hl : l.reverse with
  | nil => rw [hl] at hrev; simp at hrev
  | cons c rest =>
    rw [hl] at hrev
    simp at hrev
    subst hrev
    have hrr : ('\x7d' :: rest).reverse = l := by
      rw [← hl]
      simp
    simp only [List.dropWhile_cons_of_neg (by decide : ¬(('\x7d' != '\x7d') = true))]
    simp [hrr]

theorem tryParamsAt_of_no_marker {t : List Char}
    (h : hasPrefixL patPARAMS t = false) : tryParamsAt t = none := by
  simp [tryParamsAt, h]

theorem scanParams_cons_none {c : Char} {rest : List Char}
    (h : tryParamsAt (c :: rest) = none) :
    scanParams (c :: rest) = scanParams rest := by
  rw [scanParams, h]

theorem scanParams_cons_some {c : Char} {rest r : List Char}
    (h : tryParamsAt (c :: rest) = some r) :
    scanParams (c :: rest) = some r := by
  rw [scanParams, h]

theorem scanParams_append (a b : List Char)
    (h : ∀ u, u <:+ a → u ≠ [] → hasPrefixL patPARAMS (u ++ b) = false) :
    scanParams (a ++ b) = scanParams b := by
  induction a with
  | nil => simp
  | cons c a' ih =>
    have hfalse : hasPrefixL patPARAMS ((c :: a') ++ b) = false :=
      h (c :: a') (List.suffix_refl _) (by simp)
    show scanParams (c :: (a' ++ b)) = scanParams b
    rw [scanParams_cons_none (tryParamsAt_of_no_marker (by simpa using hfalse))]
    exact ih (fun u hu hne => h u (hu.trans (List.suffix_cons c a')) hne)

theorem no_early_params (id m s : List Char)
    (hid : ∀ c ∈ id, isWordCh c = true)
    (hm : ∀ c ∈ m, c ≠ ':') :
    ∀ u, u <:+ ('T' :: 'O' :: 'O' :: 'L' :: ':' :: ' ' :: (id ++ '\n' :: m)) → u ≠ [] →
      hasPrefixL patPARAMS
        (u ++ ('P' :: 'A' :: 'R' :: 'A' :: 'M' :: 'S' :: ':' :: ' ' :: s)) = false := by
  intro u hu hne
  cases hcase : hasPrefixL patPARAMS
      (u ++ ('P' :: 'A' :: 'R' :: 'A' :: 'M' :: 'S' :: ':' :: ' ' :: s))
  · rfl
  · exfalso
    obtain ⟨t, ht⟩ := (hasPrefixL_iff _ _).mp hcase
    obtain ⟨x, hx⟩ := hu
    rcases Nat.lt_or_ge u.length 7 with hlen | hlen
    · -- `u` shorter than the marker: the pattern's continuation would have
      -- to begin the `PARAMS: <json>` block, but no proper tail of
      -- `PARAMS:` starts with `P`.
      have hdrop : ('P' :: 'A' :: 'R' :: 'A' :: 'M' :: 'S' :: ':' :: ' ' :: s)
          = patPARAMS.drop u.length ++ t := by
        have h1 := congrArg (List.drop u.length) ht
        rw [List.drop_left] at h1
        rw [List.drop_append_of_le_length (by simp [patPARAMS]; omega)] at h1
        exact h1
      have hlen1 : 0 < u.length := List.length_pos.mpr hne
      have hP : patPARAMS[u.length]? = some 'P' := by
        have h2 := congrArg List.head? hdrop
        rw [List.head?_append] at h2
        rw [List.head?_drop] at h2
        have hlt : u.length < patPARAMS.length := by
          simp [patPARAMS]
          omega
        rw [List.getElem?_eq_getElem hlt] at h2 ⊢
        simp at h2
        rw [h2]
      have : ∀ k, k < 7 → 0 < k → patPARAMS[k]? ≠ some 'P' := by decide
      exact this u.length hlen hlen1 hP
    · -- `u` at least as long as the marker: the marker would occur inside
      -- the `TOOL: <id>` line, but the only colon there is the one of
      -- `TOOL:`, too early for a `PARAMS:` occurrence.
      have htake : u.take 7 = patPARAMS := by
        have h1 := congrArg (List.take 7) ht
        rw [List.take_append_of_le_length hlen] at h1
        rw [List.take_left' (by simp [patPARAMS])] at h1
        exact h1
      have hu7 : u = patPARAMS ++ u.drop 7 := by
        conv_lhs => rw [← List.take_append_drop 7 u]
        rw [htake]
      have hx' : x ++ (patPARAMS ++ u.drop 7)
          = 'T' :: 'O' :: 'O' :: 'L' :: ':' :: ' ' :: (id ++ '\n' :: m) := by
        rw [← hu7]
        exact hx
      have hcol : ('T' :: 'O' :: 'O' :: 'L' :: ':' :: ' ' :: (id ++ '\n' :: m))[x.length + 6]?
          = some ':' := by
        rw [← hx']
        rw [List.getElem?_append_right (by omega)]
        have : x.length + 6 - x.length = 6 := by omega
        rw [this]
        rw [List.getElem?_append_left (by simp [patPARAMS])]
        rfl
      have hsplit : ('T' :: 'O' :: 'O' :: 'L' :: ':' :: ' ' :: (id ++ '\n' :: m))
          = ['T', 'O', 'O', 'L', ':', ' '] ++ (id ++ '\n' :: m) := rfl
      rw [hsplit, List.getElem?_append_right (by simp only [List.length_cons, List.length_nil]; omega)] at hcol
      have hmem : ':' ∈ id ++ '\n' :: m := List.getElem?_mem hcol
      rw [List.mem_append] at hmem
      rcases hmem with hmem | hmem
      · have := hid ':' hmem
        revert this
        decide
      · rw [List.mem_cons] at hmem
        rcases hmem with hmem | hmem
        · cases hmem
        · exact hm ':' hmem rfl

theorem scanTool_cons_some {c : Char} {rest w : List Char}
    (h : tryToolAt (c :: rest) = some w) : scanTool (c :: rest) = some w := by
  rw [scanTool, h]

theorem dropSpaces_cons_word (c0 : Char) (l : List Char) (h : isWordCh c0 = true) :
    dropSpaces (' ' :: c0 :: l) = c0 :: l := by
  unfold dropSpaces
  rw [List.dropWhile_cons_of_pos (by decide)]
  rw [List.dropWhile_cons_of_neg (by simp [isWordCh_not_space h])]

theorem scanTool_mkDirective (id m s : List Char) (hid1 : id ≠ [])
    (hid2 : ∀ c ∈ id, isWordCh c = true) :
    scanTool (mkDirectiveText id m s) = some id := by
  obtain ⟨c0, id', rfl⟩ : ∃ c0 id', id = c0 :: id' := by
    cases id with
    | nil => exact absurd rfl hid1
    | cons a b => exact ⟨a, b, rfl⟩
  unfold mkDirectiveText
  apply scanTool_cons_some
  unfold tryToolAt
  rw [if_pos (by simp [patTOOL, hasPrefixL] :
    hasPrefixL patTOOL ('T' :: 'O' :: 'O' :: 'L' :: ':' :: ' ' ::
      ((c0 :: id') ++ '\n' ::
        (m ++ ('P' :: 'A' :: 'R' :: 'A' :: 'M' :: 'S' :: ':' :: ' ' :: s)))) = true)]
  simp only [List.drop_succ_cons, List.drop_zero, List.cons_append]
  rw [dropSpaces_cons_word c0 _ (hid2 c0 (by simp))]
  rw [← List.cons_append]
  rw [takeWhile_append_stop isWordCh (c0 :: id') '\n' _ hid2 (by decide)]
  simp

theorem getLast_cons_of_getLast {c : Char} {l : List Char}
    (h : (c :: l).getLast? = some '\x7d') (hne : c ≠ '\x7d') :
    l.getLast? = some '\x7d' := by
  rw [List.getLast?_eq_head?_reverse] at h ⊢
  rw [List.reverse_cons, List.head?_append] at h
  cases hx : l.reverse.head? with
  | none =>
    rw [hx] at h
    simp at h
    exact absurd h hne
  | some w =>
    rw [hx] at h
    simp at h
    rw [h]

theorem scanParams_mkDirective (id m s : List Char)
    (hid2 : ∀ c ∈ id, isWordCh c = true) (hm : ∀ c ∈ m, c ≠ ':')
    (hs1 : ∃ t, s = '\x7b' :: t) (hs2 : s.getLast? = some '\x7d') :
    scanParams (mkDirectiveText id m s) = some s := by
  obtain ⟨s', rfl⟩ := hs1
  have hassoc : mkDirectiveText id m ('\x7b' :: s')
      = ('T' :: 'O' :: 'O' :: 'L' :: ':' :: ' ' :: (id ++ '\n' :: m))
        ++ ('P' :: 'A' :: 'R' :: 'A' :: 'M' :: 'S' :: ':' :: ' ' :: '\x7b' :: s') := by
    unfold mkDirectiveText
    simp
  rw [hassoc]
  rw [scanParams_append _ _ (no_early_params id m ('\x7b' :: s') hid2 hm)]
  apply scanParams_cons_some
  unfold tryParamsAt
  rw [if_pos (by simp [patPARAMS, hasPrefixL] :
    hasPrefixL patPARAMS ('P' :: 'A' :: 'R' :: 'A' :: 'M' :: 'S' :: ':' :: ' '
      :: '\x7b' :: s') = true)]
  simp only [List.drop_succ_cons, List.drop_zero]
  have hds : dropSpaces (' ' :: '\x7b' :: s') = '\x7b' :: s' := by
    unfold dropSpaces
    rw [List.dropWhile_cons_of_pos (by decide)]
    rw [List.dropWhile_cons_of_neg (by decide)]
  rw [hds]
  have hs2' : s'.getLast? = some '\x7d' := getLast_cons_of_getLast hs2 (by decide)
  show Option.map (fun b => '\x7b' :: b) (takeToLastRBrace s') = some ('\x7b' :: s')
  rw [takeToLastRBrace_of_getLast hs2']
  rfl

/-! ## Claim theorems -/

/-- Claim C1 (amended): for text of the shape `TOOL: <id>` … `PARAMS: <json>`
where `<id>` is a nonempty `\w+` identifier, the intermediate text carries
no colon, the JSON object text begins with its brace, parses, and — as the
greedy capture of the PARAMS regex forces — ends at the LAST closing
brace of the whole input, `parse_tool_response` (both the `c3.py` and the
`client.py`/`c2.py` versions) returns exactly `(that identifier, the parsed
params)`, deep-equal to the JSON object in the text. -/
theorem parse_tool_response_wellformed (id m s : List Char) (v : Json)
    (hid1 : id ≠ []) (hid2 : ∀ c ∈ id, isWordCh c = true)
    (hm : ∀ c ∈ m, c ≠ ':')
    (hs1 : ∃ t, s = '\x7b' :: t) (hs2 : s.getLast? = some '\x7d')
    (hv : jsonLoads s = .ok v) :
    parse_tool_response (mkDirectiveText id m s)
      = .ok (some (Json.str (String.mk id), v))
    ∧ parse_tool_response_v1 (mkDirectiveText id m s)
      = .ok (some (String.mk id, v)) := by
  have h1 := scanTool_mkDirective id m s hid1 hid2
  have h2 := scanParams_mkDirective id m s hid2 hm hs1 hs2
  constructor
  · simp [parse_tool_response, h1, h2, hv]
  · simp [parse_tool_response_v1, h1, h2, hv]

/-- Witness for C1's amended theorem at a concrete directive text. -/
theorem parse_tool_response_wellformed_witness :
    parse_tool_response
        (mkDirectiveText "get_data".toList [] "\x7b\x22table\x22: \x22Customer\x22\x7d".toList)
      = .ok (some (Json.str "get_data", Json.obj [("table", Json.str "Customer")])) := by
  exact (parse_tool_response_wellformed "get_data".toList []
    "\x7b\x22table\x22: \x22Customer\x22\x7d".toList
    (Json.obj [("table", Json.str "Customer")])
    (by decide) (by decide) (by simp)
    ⟨"\x22table\x22: \x22Customer\x22\x7d".toList, rfl⟩ rfl rfl).1

/-- Counterexample to Claim C1 as stated: the input holds a `TOOL: f` line
and a `PARAMS:` line whose JSON object `\x7b"a": 1\x7d` is well-formed, yet a
later stray `\x7d` makes the greedy capture unparseable, so the function
raises (`json.loads` "Extra data") instead of returning the pair. -/
theorem parse_tool_response_greedy_failure :
    jsonLoads "\x7b\x22a\x22: 1\x7d".toList = .ok (Json.obj [("a", Json.num 1)])
    ∧ parse_tool_response "TOOL: f\nPARAMS: \x7b\x22a\x22: 1\x7d\n\x7d".toList
        = .error (PyErr.jsonDecode "Extra data")
    ∧ isErrE (parse_tool_response_v1 "TOOL: f\nPARAMS: \x7b\x22a\x22: 1\x7d\n\x7d".toList)
        = true :=
  ⟨rfl, rfl, rfl⟩

/-- Claim C2 (amended): when neither regex grammar matches (one of the two
searches fails) and the `c3.py` JSON fallback also fails — the fence-stripped
text does not parse, or parses to an object missing a `TOOL`/`PARAMS` key —
`parse_tool_response` returns `(None, None)` as a normal value; but the
function is NOT total: a matched `TOOL:`/`PARAMS:` pair whose captured brace
span is malformed JSON raises an uncaught `json.JSONDecodeError`. -/
theorem parse_tool_response_no_match_none (text : List Char)
    (hprim : scanTool text = none ∨ scanParams text = none)
    (hfb : isJsonErr (jsonLoads (stripFencesClean text)) = true
        ∨ ∃ kvs, jsonLoads (stripFencesClean text) = .ok (Json.obj kvs)
            ∧ (containsKey kvs "TOOL" = false ∨ containsKey kvs "PARAMS" = false)) :
    parse_tool_response text = .ok none
    ∧ parse_tool_response_v1 text = .ok none := by
  have hfall : fallbackParse text = .ok none := by
    rcases hfb with herr | ⟨kvs, hok, hkeys⟩
    · cases hj : jsonLoads (stripFencesClean text) with
      | error e => simp [fallbackParse, hj]
      | ok j => rw [hj] at herr; simp [isJsonErr] at herr
    · rcases hkeys with hk | hk
      · simp [fallbackParse, hok, pyIn, hk]
      · by_cases ht : containsKey kvs "TOOL"
        · simp [fallbackParse, hok, pyIn, ht, hk]
        · simp [fallbackParse, hok, pyIn, ht]
  constructor
  · cases h1 : scanTool text <;> cases h2 : scanParams text
    · simp [parse_tool_response, h1, h2, hfall]
    · simp [parse_tool_response, h1, h2, hfall]
    · simp [parse_tool_response, h1, h2, hfall]
    · exfalso
      rcases hprim with h | h <;> simp_all
  · cases h1 : scanTool text <;> cases h2 : scanParams text
    · simp [parse_tool_response_v1, h1, h2]
    · simp [parse_tool_response_v1, h1, h2]
    · simp [parse_tool_response_v1, h1, h2]
    · exfalso
      rcases hprim with h | h <;> simp_all

/-- Witness for C2's amended theorem on plain conversational text. -/
theorem parse_tool_response_no_match_none_witness :
    parse_tool_response "how many rows are in the table".toList = .ok none := by
  exact (parse_tool_response_no_match_none "how many rows are in the table".toList
    (Or.inl rfl) (Or.inl rfl)).1

/-- Counterexample to Claim C2 as stated: on `TOOL: x` followed by
`PARAMS: \x7bbad\x7d` — a matched pair with malformed JSON, which the claim
says yields `(None, None)` — both parser versions raise instead of
returning. -/
theorem parse_tool_response_malformed_raises :
    isErrE (parse_tool_response "TOOL: x\nPARAMS: \x7bbad\x7d".toList) = true
    ∧ isErrE (parse_tool_response_v1 "TOOL: x\nPARAMS: \x7bbad\x7d".toList) = true :=
  ⟨rfl, rfl⟩

/-- Claim C3 (confirmed): starting from empty memory, any sequence of
generic-path turns (each appending exactly one user and one assistant
message, as `memAppendTrim` encodes from the source) leaves the memory
equal to the most recent `2 * MAX_MEMORY = 20` messages of the full
appended history, in original insertion order (a suffix of the history),
and its length never exceeds 20. -/
theorem memory_sliding_window (ps : List (String × String)) :
    runTurns [] ps = lastN (MAX_MEMORY * 2) (histOf ps)
    ∧ (runTurns [] ps).length ≤ MAX_MEMORY * 2
    ∧ runTurns [] ps <:+ histOf ps := by
  have h := runTurns_eq_lastN ps [] (by simp)
  simp only [List.nil_append] at h
  refine ⟨h, ?_, ?_⟩
  · rw [h]
    exact lastN_length_le _ _
  · rw [h]
    exact lastN_suffix _ _

/-- Claim C4 (amended): for every insert tool payload that parses as a JSON
OBJECT whose `message` value (when present) is a string, the interpreter
reports success — naming the table and the count of fields written — exactly
when the message contains "successfully" case-insensitively or the `object`
field equals "insert_result", and otherwise reports failure including the raw
payload text; a payload that does not parse as JSON is classified by
substring search for "error"/"failed".  (Payloads decoding to a non-object,
or with a non-string `message`, make the code raise instead — see the
counterexample.) -/
theorem insertion_result_classification :
    (∀ (result_text : String) (kvs : List (String × Json)) (m table : String)
        (data params : List (String × Json)),
      jsonLoads result_text.toList = .ok (Json.obj kvs) →
      (lookupKey kvs "message").getD (Json.str "") = Json.str m →
      lookupKey params "table" = some (Json.str table) →
      lookupKey params "data" = some (Json.obj data) →
      processInsertionResult result_text params =
        .ok (if containsSub "successfully".toList (pyLower m).toList || isInsertTag kvs
             then insertSuccessMsg table data.length
             else insertFailMsg table result_text))
    ∧ (∀ (result_text table : String) (data params : List (String × Json)),
      isJsonErr (jsonLoads result_text.toList) = true →
      lookupKey params "table" = some (Json.str table) →
      lookupKey params "data" = some (Json.obj data) →
      processInsertionResult result_text params =
        .ok (if containsSub "error".toList (pyLower result_text).toList
               || containsSub "failed".toList (pyLower result_text).toList
             then insertFailMsg table result_text
             else insertSuccessMsg table data.length)) := by
  have htn : ∀ (params : List (String × Json)) (table : String),
      lookupKey params "table" = some (Json.str table) → tableNameOf params = table := by
    intro params table h
    unfold tableNameOf
    rw [h]
    rfl
  have hdn : ∀ (params data : List (String × Json)),
      lookupKey params "data" = some (Json.obj data) →
        insertedDataOf params = Json.obj data := by
    intro params data h
    unfold insertedDataOf
    rw [h]
    rfl
  constructor
  · intro result_text kvs m table data params hjson hmsg htable hdata
    unfold processInsertionResult
    rw [hjson]
    dsimp only
    rw [hmsg]
    dsimp only
    rw [htn params table htable, hdn params data hdata]
    by_cases hsucc : (containsSub "successfully".toList (pyLower m).toList
        || isInsertTag kvs) = true
    · rw [if_pos hsucc, if_pos hsucc]
      rfl
    · rw [if_neg hsucc, if_neg hsucc]
  · intro result_text table data params herr htable hdata
    cases hj : jsonLoads result_text.toList with
    | ok j => rw [hj] at herr; simp [isJsonErr] at herr
    | error e =>
      unfold processInsertionResult
      rw [hj]
      dsimp only
      rw [htn params table htable, hdn params data hdata]
      by_cases hfail : (containsSub "error".toList (pyLower result_text).toList
          || containsSub "failed".toList (pyLower result_text).toList) = true
      · rw [if_pos hfail, if_pos hfail]
      · rw [if_neg hfail, if_neg hfail]
        rfl

/-- Witness for C4's amended theorem on the two payloads named by the
claim: the tagged success payload yields the confirmation naming
`Customer` and 2 fields; the bare `constraint violation` payload yields
the failure sentence carrying the raw text. -/
theorem insertion_result_classification_witness :
    processInsertionResult
        "\x7b\x22object\x22:\x22insert_result\x22,\x22message\x22:\x22Successfully inserted row into \x27Customer\x27\x22\x7d"
        [("table", Json.str "Customer"),
         ("data", Json.obj [("name", Json.str "John"), ("age", Json.num 30)])]
      = .ok "✅ Successfully inserted record into Customer table with 2 fields."
    ∧ processInsertionResult "\x7b\x22message\x22:\x22constraint violation\x22\x7d"
        [("table", Json.str "Customer"), ("data", Json.obj [("name", Json.str "John")])]
      = .ok "❌ Error inserting data into Customer: \x7b\x22message\x22:\x22constraint violation\x22\x7d" := by
  constructor
  · exact ((insertion_result_classification).1
      "\x7b\x22object\x22:\x22insert_result\x22,\x22message\x22:\x22Successfully inserted row into \x27Customer\x27\x22\x7d"
      [("object", Json.str "insert_result"),
       ("message", Json.str "Successfully inserted row into \x27Customer\x27")]
      "Successfully inserted row into \x27Customer\x27" "Customer"
      [("name", Json.str "John"), ("age", Json.num 30)]
      [("table", Json.str "Customer"),
       ("data", Json.obj [("name", Json.str "John"), ("age", Json.num 30)])]
      rfl rfl rfl rfl).trans rfl
  · exact ((insertion_result_classification).1
      "\x7b\x22message\x22:\x22constraint violation\x22\x7d"
      [("message", Json.str "constraint violation")]
      "constraint violation" "Customer"
      [("name", Json.str "John")]
      [("table", Json.str "Customer"), ("data", Json.obj [("name", Json.str "John")])]
      rfl rfl rfl rfl).trans rfl

/-- Counterexample to Claim C4 as stated: the payload `5` parses as JSON,
has no success marker, so the claim demands a failure report carrying the
raw text — but `result_json.get(...)` on the decoded integer raises
`AttributeError` (only `json.JSONDecodeError` is caught), and the
interpreter returns nothing. -/
theorem insertion_result_nonobject_raises :
    jsonLoads "5".toList = .ok (Json.num 5)
    ∧ isErrE (processInsertionResult "5"
        [("table", Json.str "Customer"), ("data", Json.obj [])]) = true :=
  ⟨rfl, rfl⟩

/-- Claim C5 (confirmed): after default filling, the params dict always
contains `table` and `schema`; a missing `table` is set to `"Customer"`,
a missing `schema` to `"SAC_1"`, and an existing `table` entry keeps its
original value. -/
theorem generic_defaults_fill (params : List (String × Json)) :
    containsKey (defaultFill params) "table" = true
    ∧ containsKey (defaultFill params) "schema" = true
    ∧ (containsKey params "table" = false →
        lookupKey (defaultFill params) "table" = some (Json.str "Customer"))
    ∧ (containsKey params "schema" = false →
        lookupKey (defaultFill params) "schema" = some (Json.str "SAC_1"))
    ∧ (∀ v, lookupKey params "table" = some v →
        lookupKey (defaultFill params) "table" = some v) := by
  have hcs : containsKey [("table", Json.str "Customer")] "schema" = false := by decide
  have hct : containsKey [("table", Json.str "Customer")] "table" = true := by decide
  have hss : containsKey [("schema", Json.str "SAC_1")] "schema" = true := by decide
  have hfill : defaultFill params =
      if containsKey params "table" then
        (if containsKey params "schema" then params
         else params ++ [("schema", Json.str "SAC_1")])
      else
        (if containsKey params "schema" then params ++ [("table", Json.str "Customer")]
         else params ++ [("table", Json.str "Customer")]
              ++ [("schema", Json.str "SAC_1")]) := by
    unfold defaultFill
    by_cases ht : containsKey params "table" <;>
      by_cases hs : containsKey params "schema" <;>
        simp [ht, hs, containsKey_append, hcs]
  by_cases ht : containsKey params "table"
  · by_cases hs : containsKey params "schema"
    · rw [hfill, if_pos ht, if_pos hs]
      refine ⟨ht, hs, ?_, ?_, ?_⟩
      · intro h
        rw [h] at ht
        exact Bool.noConfusion ht
      · intro h
        rw [h] at hs
        exact Bool.noConfusion hs
      · intro v hv
        exact hv
    · have hsf : containsKey params "schema" = false := by simpa using hs
      rw [hfill, if_pos ht, if_neg hs]
      refine ⟨?_, ?_, ?_, ?_, ?_⟩
      · simp [containsKey_append, ht]
      · simp [containsKey_append, hss]
      · intro h
        rw [h] at ht
        exact Bool.noConfusion ht
      · intro _
        exact lookupKey_of_containsKey_false_append _ hsf
      · intro v hv
        exact lookupKey_append_left hv _
  · have htf : containsKey params "table" = false := by simpa using ht
    by_cases hs : containsKey params "schema"
    · rw [hfill, if_neg ht, if_pos hs]
      refine ⟨?_, ?_, ?_, ?_, ?_⟩
      · simp [containsKey_append, hct]
      · simp [containsKey_append, hs]
      · intro _
        exact lookupKey_of_containsKey_false_append _ htf
      · intro h
        rw [h] at hs
        exact Bool.noConfusion hs
      · intro v hv
        exact lookupKey_append_left hv _
    · have hsf : containsKey params "schema" = false := by simpa using hs
      rw [hfill, if_neg ht, if_neg hs]
      refine ⟨?_, ?_, ?_, ?_, ?_⟩
      · simp [containsKey_append]
        exact Or.inr (by decide)
      · simp [containsKey_append]
        exact Or.inr (by decide)
      · intro _
        exact lookupKey_append_left (lookupKey_of_containsKey_false_append _ htf) _
      · intro _
        have h2 : containsKey (params ++ [("table", Json.str "Customer")]) "schema"
            = false := by
          simp [containsKey_append, hsf, hcs]
        exact lookupKey_of_containsKey_false_append _ h2
      · intro v hv
        exact lookupKey_append_left (lookupKey_append_left hv _) _

/-- Witness for C5 at a concrete directive params dict: the empty dict gets both
defaults; a dict already carrying `table` keeps its value. -/
theorem generic_defaults_fill_witness :
    defaultFill [] = [("table", Json.str "Customer"), ("schema", Json.str "SAC_1")]
    ∧ lookupKey (defaultFill [("table", Json.str "Products")]) "table"
        = some (Json.str "Products") := by
  constructor
  · rfl
  · exact (generic_defaults_fill [("table", Json.str "Products")]).2.2.2.2
      (Json.str "Products") rfl

theorem containsSub_of_hasPrefixL {p l : List Char} (h : hasPrefixL p l = true) :
    containsSub p l = true := by
  cases l with
  | nil => simpa [containsSub] using h
  | cons c rest => simp [containsSub, h]

/-- Claim C6 (confirmed): the lowercased utterance is tested against the
keyword sets in the fixed order insertion, deletion, update; the first
matching set selects its specialized handler (schema available), no match
takes the generic path, and in particular an utterance matching both an
insertion term and an update term is routed to the insertion handler. -/
theorem intent_router_priority (q : String) :
    (kwAny insertion_keywords (pyLower q) = true → routeOf q true = Route.insertion)
    ∧ (kwAny insertion_keywords (pyLower q) = true
        ∧ kwAny update_keywords (pyLower q) = true → routeOf q true = Route.insertion)
    ∧ (kwAny insertion_keywords (pyLower q) = false →
        kwAny deletion_keywords (pyLower q) = true → routeOf q true = Route.deletion)
    ∧ (kwAny insertion_keywords (pyLower q) = false →
        kwAny deletion_keywords (pyLower q) = false →
        kwAny update_keywords (pyLower q) = true → routeOf q true = Route.update)
    ∧ (kwAny insertion_keywords (pyLower q) = false →
        kwAny deletion_keywords (pyLower q) = false →
        kwAny update_keywords (pyLower q) = false →
        ∀ b, routeOf q b = Route.generic) := by
  refine ⟨?_, ?_, ?_, ?_, ?_⟩
  · intro h
    simp [routeOf, h]
  · rintro ⟨h, _⟩
    simp [routeOf, h]
  · intro h1 h2
    simp [routeOf, h1, h2]
  · intro h1 h2 h3
    simp [routeOf, h1, h2, h3]
  · intro h1 h2 h3 b
    simp [routeOf, h1, h2, h3]

/-- Witness for C6: an utterance matching both an insertion term (`add`)
and an update term (`change`) goes to the insertion handler. -/
theorem intent_router_priority_witness :
    kwAny insertion_keywords (pyLower "add the item and change its price") = true
    ∧ kwAny update_keywords (pyLower "add the item and change its price") = true
    ∧ routeOf "add the item and change its price" true = Route.insertion := by
  refine ⟨by decide, by decide, ?_⟩
  exact (intent_router_priority "add the item and change its price").2.1
    ⟨by decide, by decide⟩

/-- Claim C7 (amended): the `insert_data` of `server.py` on a successful
database execution returns `\x7bobject: "insert_result", message, data\x7d` with
the message containing "Successfully" and `data` echoed verbatim, the SQL
column list depending only on the keys of `data`; a database error instead
fails with an `HTTPException(400, error)`.  (The `s2.py` variant violates
the claimed shape — see the counterexample.) -/
theorem insert_data_success_shape (table : String) (data : List (String × Json)) :
    insert_data table data DbOutcome.ok
      = .ok (Json.obj
          [("object", Json.str "insert_result"),
           ("message", Json.str ("Successfully inserted row into \x27" ++ table ++ "\x27")),
           ("data", Json.obj data)])
    ∧ containsSub "Successfully".toList
        ("Successfully inserted row into \x27" ++ table ++ "\x27").toList = true
    ∧ (∀ e, insert_data table data (DbOutcome.err e) = .error (400, e))
    ∧ (∀ (schemaName : String) (data' : List (String × Json)),
        data.map Prod.fst = data'.map Prod.fst →
        insertSql schemaName table data = insertSql schemaName table data') := by
  refine ⟨rfl, ?_, fun e => rfl, ?_⟩
  · apply containsSub_of_hasPrefixL
    rw [hasPrefixL_iff]
    refine ⟨" inserted row into \x27".toList ++ (table.toList ++ "\x27".toList), ?_⟩
    show ("Successfully inserted row into \x27" ++ table ++ "\x27").data
      = "Successfully".data ++ (" inserted row into \x27".data ++ (table.data ++ "\x27".data))
    rw [String.data_append, String.data_append]
    rw [show ("Successfully inserted row into \x27".data : List Char)
        = "Successfully".data ++ " inserted row into \x27".data from rfl]
    rw [List.append_assoc, List.append_assoc]
  · intro schemaName data' hkeys
    unfold insertSql colClause valClause
    have h1 : data.map (fun kv => "\x22" ++ kv.1 ++ "\x22")
        = data'.map (fun kv => "\x22" ++ kv.1 ++ "\x22") := by
      have := congrArg (List.map (fun k => "\x22" ++ k ++ "\x22")) hkeys
      simpa [List.map_map, Function.comp] using this
    have h2 : data.map (fun _ => "?") = data'.map (fun _ => "?") := by
      have hlen : data.length = data'.length := by
        simpa using congrArg List.length hkeys
      simp [List.map_const', hlen]
    rw [h1, h2]

/-- Witness for C7's amended theorem at a concrete insert. -/
theorem insert_data_success_shape_witness :
    insert_data "Customer" [("name", Json.str "John"), ("age", Json.num 30)] DbOutcome.ok
      = .ok (Json.obj
          [("object", Json.str "insert_result"),
           ("message", Json.str "Successfully inserted row into \x27Customer\x27"),
           ("data", Json.obj [("name", Json.str "John"), ("age", Json.num 30)])])
    ∧ insertSql "SAC_1" "Customer" [("name", Json.str "John")]
      = insertSql "SAC_1" "Customer" [("name", Json.str "Jane")] := by
  constructor
  · exact ((insert_data_success_shape "Customer"
      [("name", Json.str "John"), ("age", Json.num 30)]).1).trans rfl
  · exact (insert_data_success_shape "Customer" [("name", Json.str "John")]).2.2.2
      "SAC_1" [("name", Json.str "Jane")] rfl

/-- Counterexample to Claim C7 as stated: the repository's second server
variant `s2.py` returns, on a successful insert, a payload with NO
`object` field and a message that does not contain "Successfully". -/
theorem s2_insert_data_shape_mismatch :
    s2_insert_data "Customer" [("name", Json.str "John")] DbOutcome.ok
      = .ok (Json.obj
          [("message", Json.str "Row inserted into \x27Customer\x27"),
           ("data", Json.obj [("name", Json.str "John")])])
    ∧ lookupKey [("message", Json.str "Row inserted into \x27Customer\x27"),
                 ("data", Json.obj [("name", Json.str "John")])] "object" = none
    ∧ containsSub "Successfully".toList "Row inserted into \x27Customer\x27".toList = false :=
  ⟨rfl, rfl, rfl⟩

/-- Claim C8 (amended): once `get_schema` holds a cached schema that is
truthy (non-empty), every later call without `force_refresh` returns the
identical cached object and performs no tool call; `force_refresh = True`
always performs the call.  (A falsy cached value — e.g. a schema decoded
from `\x7b\x7d` — is NOT treated as a cache hit: see the counterexample.) -/
theorem schema_cache_roundtrip (c : Json) (fetch : FetchOutcome)
    (h : pyTruthy c = true) :
    get_schema (some c) false fetch = (some c, some c, false)
    ∧ (∀ (c' : Option Json) (fetch' : FetchOutcome),
        (get_schema c' true fetch').2.2 = true) := by
  constructor
  · unfold get_schema
    rw [if_pos (by simp [h])]
  · intro c' fetch'
    unfold get_schema
    rw [if_neg (by simp)]
    cases fetch' with
    | err => rfl
    | ok text =>
      dsimp only
      by_cases he : text.isEmpty
      · simp [he]
      · rw [if_neg he]
        cases hj : jsonLoads text.toList <;> simp [hj]

/-- Witness for C8's amended theorem: with a truthy cached schema the
call returns the identical object and does not touch the tool channel. -/
theorem schema_cache_roundtrip_witness :
    get_schema (some (Json.obj [("Customer", Json.str "table")])) false FetchOutcome.err
      = (some (Json.obj [("Customer", Json.str "table")]),
         some (Json.obj [("Customer", Json.str "table")]), false) := by
  exact (schema_cache_roundtrip (Json.obj [("Customer", Json.str "table")])
    FetchOutcome.err (by decide)).1

/-- Counterexample to Claim C8 as stated: a first `get_schema` call that
succeeds with the (empty) schema `\x7b\x7d` caches it, yet the next call
without `force_refresh` performs another tool call, because the cache test
is Python truthiness and `\x7b\x7d` is falsy. -/
theorem schema_cache_empty_refetch :
    get_schema none false (FetchOutcome.ok "\x7b\x7d")
      = (some (Json.obj []), some (Json.obj []), true)
    ∧ (get_schema (some (Json.obj [])) false (FetchOutcome.ok "\x7b\x7d")).2.2 = true :=
  ⟨rfl, rfl⟩

/-- Claim C9 (confirmed): keyword matching is substring containment on the
whole lowercased utterance, so any utterance containing `add` anywhere —
for example inside the word "address" — is routed to the schema-aware
insertion handler, whatever other keyword sets also match. -/
theorem keyword_substring_routing (q : String)
    (h : containsSub "add".toList (pyLower q).toList = true) :
    routeOf q true = Route.insertion := by
  have hkw : kwAny insertion_keywords (pyLower q) = true := by
    unfold kwAny
    rw [List.any_eq_true]
    exact ⟨"add", by simp [insertion_keywords], h⟩
  simp [routeOf, hkw]

/-- Witness for C9: "change the address of the customer" carries the
update keyword `change`, yet the substring `add` inside "address" routes
it to the insertion handler. -/
theorem keyword_substring_routing_witness :
    containsSub "add".toList (pyLower "change the address of the customer").toList = true
    ∧ kwAny update_keywords (pyLower "change the address of the customer") = true
    ∧ routeOf "change the address of the customer" true = Route.insertion := by
  refine ⟨by decide, by decide, ?_⟩
  exact keyword_substring_routing "change the address of the customer" (by decide)

/-- Claim C10 (confirmed): a turn that reaches a specialized schema-aware
handler (keyword match plus truthy schema) leaves `ConversationMemory`
exactly unchanged; only generic-path turns append the user/assistant
exchange. -/
theorem specialized_handlers_memory_frame (st : ClientState) (q : String)
    (o : TurnOracle) :
    (∀ sd : Json, wantsSpecialized q = true →
      (get_schema st.cached_schema false o.schemaFetch).1 = some sd →
      pyTruthy sd = true →
      (processQueryState st q o).memory = st.memory)
    ∧ (wantsSpecialized q = false →
        (processQueryState st q o).memory = memAppendTrim st.memory q o.llmText) := by
  constructor
  · intro sd hkw hres htruthy
    unfold processQueryState
    rw [if_pos hkw]
    dsimp only
    rw [hres]
    dsimp only
    rw [if_pos htruthy]
  · intro hkw
    unfold processQueryState
    rw [if_neg (by simp [hkw])]

/-- Witness for C10: a specialized insertion turn with a truthy fetched
schema leaves a two-message memory untouched. -/
theorem specialized_handlers_memory_frame_witness :
    (processQueryState ⟨[Msg.user "hi", Msg.assistant "hello"], none⟩ "add John aged 30"
        ⟨FetchOutcome.ok "\x7b\x22Customer\x22: \x7b\x22type\x22: \x22table\x22\x7d\x7d", "unused"⟩).memory
      = [Msg.user "hi", Msg.assistant "hello"] := by
  exact (specialized_handlers_memory_frame
      ⟨[Msg.user "hi", Msg.assistant "hello"], none⟩ "add John aged 30"
      ⟨FetchOutcome.ok "\x7b\x22Customer\x22: \x7b\x22type\x22: \x22table\x22\x7d\x7d", "unused"⟩).1
    (Json.obj [("Customer", Json.obj [("type", Json.str "table")])])
    (by decide) rfl (by decide)
